import Mathlib

/-!
# Ring buffer of `functional_morphogenesis.h`

A shallow embedding of the receive ring buffer of the robot's `USERDATA`
(`RXBuffer`, `RXHead`, `RXTail`) and of the `RB_*` macros that operate on it,
followed by the properties of the buffer as a bounded FIFO queue.

The macros are embedded with the buffer size as a parameter `N`; the header
fixes it with `#define RB_SIZE 16`.  The element type `received_message_t`
is built from types the header does not declare, so it is a type parameter.
-/

namespace FunctionalMorphogenesis

/-! ## Data model -/

/-- The constant `RB_SIZE` of the header (`#define RB_SIZE 16`). -/
def RB_SIZE : Nat := 16

/-- Conversion of an `int` value to `uint8_t`, as happens on every assignment
to `RXHead` and `RXTail`. -/
def u8 (n : Nat) : Nat := n % 256

/-- The ring-buffer fields of `USERDATA`: `RXBuffer[RB_SIZE]` as a map from
slot index to message, and the two `uint8_t` indices. -/
structure USERDATA (α : Type) where
  RXBuffer : Nat → α
  RXHead : Nat
  RXTail : Nat

variable {α : Type}

/-! ## The macros -/

/-- `RB_init()`: `RXHead = 0; RXTail = 0;`. -/
def RB_init (s : USERDATA α) : USERDATA α :=
  { s with RXHead := u8 0, RXTail := u8 0 }

/-- `RB_empty()`: `RXHead == RXTail`. -/
def RB_empty (s : USERDATA α) : Bool :=
  s.RXHead == s.RXTail

/-- `RB_full()`: `(RXHead+1)%RB_SIZE == RXTail`. -/
def RB_full (N : Nat) (s : USERDATA α) : Bool :=
  (s.RXHead + 1) % N == s.RXTail

/-- `RB_front()`: `RXBuffer[RXHead]`, read. -/
def RB_front (s : USERDATA α) : α :=
  s.RXBuffer s.RXHead

/-- `RB_back()`: `RXBuffer[RXTail]`, read. -/
def RB_back (s : USERDATA α) : α :=
  s.RXBuffer s.RXTail

/-- `RB_back() = m`: the store through `RB_back()`, writing slot `RXTail`.
The array has `RB_SIZE` slots; this is the store for `RXTail` inside the
array, and a store beyond it is not described. -/
def RB_back_store (s : USERDATA α) (m : α) : USERDATA α :=
  { s with RXBuffer := fun j => if j = s.RXTail then m else s.RXBuffer j }

/-- `RB_popfront()`: `RXHead = (RXHead+1)%RB_SIZE;`. -/
def RB_popfront (N : Nat) (s : USERDATA α) : USERDATA α :=
  { s with RXHead := u8 ((s.RXHead + 1) % N) }

/-- `RB_pushback()`: `RXTail = (RXTail+1)%RB_SIZE;` and then, when
`RB_empty()` holds of the new indices, `RXHead = (RXHead+1)%RB_SIZE;`. -/
def RB_pushback (N : Nat) (s : USERDATA α) : USERDATA α :=
  let s1 : USERDATA α := { s with RXTail := u8 ((s.RXTail + 1) % N) }
  if RB_empty s1 then { s1 with RXHead := u8 ((s1.RXHead + 1) % N) } else s1

/-! ## Producer and consumer steps built from the macros -/

/-- A push: store the message in `RB_back()`, then `RB_pushback()`. -/
def push (N : Nat) (s : USERDATA α) (m : α) : USERDATA α :=
  RB_pushback N (RB_back_store s m)

/-- A guarded pop: `RB_popfront()` executed only when `RB_empty()` is false. -/
def popGuarded (N : Nat) (s : USERDATA α) : USERDATA α :=
  if RB_empty s then s else RB_popfront N s

/-- Push the messages of a list one after the other. -/
def pushAll (N : Nat) (s : USERDATA α) : List α → USERDATA α
  | [] => s
  | m :: ms => pushAll N (push N s m) ms

/-- One step of a client of the queue: a push of a message or a guarded pop. -/
inductive Op (α : Type) where
  | push (m : α)
  | pop

/-- Run one client step. -/
def step (N : Nat) (s : USERDATA α) : Op α → USERDATA α
  | Op.push m => push N s m
  | Op.pop => popGuarded N s

/-- Run a sequence of client steps, first to last. -/
def run (N : Nat) (s : USERDATA α) (ops : List (Op α)) : USERDATA α :=
  ops.foldl (step N) s

/-- A bare macro call on the indices: `RB_pushback()` or `RB_popfront()`,
with no emptiness check around it. -/
inductive Call where
  | pushback
  | popfront
  deriving DecidableEq

/-- Execute one bare macro call. -/
def exec (N : Nat) (s : USERDATA α) : Call → USERDATA α
  | Call.pushback => RB_pushback N s
  | Call.popfront => RB_popfront N s

/-- Execute a sequence of bare macro calls, first to last. -/
def execAll (N : Nat) (s : USERDATA α) (cs : List Call) : USERDATA α :=
  cs.foldl (exec N) s

/-- Modelled from the spec: the consumer's drain loop, which the header does
not contain.  While `RB_empty()` is false: read `RB_front()`, then
`RB_popfront()`.  The result is the list of messages read and the final
state, or `none` when the loop has not finished within `fuel` iterations. -/
def drain (N : Nat) : Nat → USERDATA α → Option (List α × USERDATA α)
  | 0, s => if RB_empty s then some ([], s) else none
  | fuel + 1, s =>
    if RB_empty s then some ([], s)
    else
      match drain N fuel (RB_popfront N s) with
      | some (ms, s') => some (RB_front s :: ms, s')
      | none => none

/-- Modelled from the spec: the bare consumer loop, which the header does not
contain.  While `RB_empty()` is false: `RB_popfront()`.  The result is the
number of iterations executed and the final state, or `none` when the loop
has not finished within `fuel` iterations. -/
def popLoop (N : Nat) : Nat → USERDATA α → Option (Nat × USERDATA α)
  | 0, s => if RB_empty s then some (0, s) else none
  | fuel + 1, s =>
    if RB_empty s then some (0, s)
    else
      match popLoop N fuel (RB_popfront N s) with
      | some (k, s') => some (k + 1, s')
      | none => none

/-! ## Observations -/

/-- Both indices lie inside the array: `RXHead, RXTail ∈ [0, N)`. -/
def InRange (N : Nat) (s : USERDATA α) : Prop :=
  s.RXHead < N ∧ s.RXTail < N

instance (N : Nat) (s : USERDATA α) : Decidable (InRange N s) := by
  unfold InRange; infer_instance

/-- The unread count `(RXTail - RXHead) mod N`. -/
def count (N : Nat) (s : USERDATA α) : Nat :=
  (s.RXTail + N - s.RXHead) % N

/-- The unread contents: slots `RXHead`, `RXHead+1`, ... up to but excluding
`RXTail`, read cyclically modulo `N`. -/
def unread (N : Nat) (s : USERDATA α) : List α :=
  (List.range (count N s)).map (fun i => s.RXBuffer ((s.RXHead + i) % N))

/-! ## The abstract queue -/

/-- Abstract push: append at the back, first discarding the front (oldest)
element when the queue already holds `N - 1` elements. -/
def absPush (N : Nat) (q : List α) (m : α) : List α :=
  if q.length = N - 1 then q.tail ++ [m] else q ++ [m]

/-- Abstract pop: remove the front element. -/
def absPop (q : List α) : List α := q.tail

/-- One step of the abstract queue. -/
def absStep (N : Nat) (q : List α) : Op α → List α
  | Op.push m => absPush N q m
  | Op.pop => absPop q

/-- Run a sequence of steps on the abstract queue, first to last. -/
def absRun (N : Nat) (q : List α) (ops : List (Op α)) : List α :=
  ops.foldl (absStep N) q

/-- A state with an all-zero buffer and the given indices, for evaluation. -/
def mk0 (h t : Nat) : USERDATA Nat :=
  { RXBuffer := fun _ => 0, RXHead := h, RXTail := t }

/-! ## Index arithmetic -/

theorem u8_of_lt {N x : Nat} (hN : N ≤ 256) (hx : x < N) : u8 x = x := by
  unfold u8
  exact Nat.mod_eq_of_lt (by omega)

theorem u8_mod {N : Nat} (x : Nat) (h0 : 0 < N) (hN : N ≤ 256) : u8 (x % N) = x % N :=
  u8_of_lt hN (Nat.mod_lt x h0)

theorem succ_mod_of_lt {N x : Nat} (hx : x < N) :
    (x + 1) % N = if x + 1 = N then 0 else x + 1 := by
  split
  · next h => rw [h, Nat.mod_self]
  · next h => exact Nat.mod_eq_of_lt (by omega)

theorem add_mod_of_lt {N x i : Nat} (hx : x < N) (hi : i < N) :
    (x + i) % N = if x + i < N then x + i else x + i - N := by
  split
  · next h => exact Nat.mod_eq_of_lt h
  · next h =>
    rw [Nat.mod_eq_sub_mod (by omega)]
    exact Nat.mod_eq_of_lt (by omega)

theorem count_eq {N : Nat} (s : USERDATA α) (hs : InRange N s) :
    count N s = if s.RXHead ≤ s.RXTail then s.RXTail - s.RXHead
      else s.RXTail + N - s.RXHead := by
  obtain ⟨hh, ht⟩ := hs
  unfold count
  split
  · next h =>
    have e : s.RXTail + N - s.RXHead = (s.RXTail - s.RXHead) + N := by omega
    rw [e, Nat.add_mod_right]
    exact Nat.mod_eq_of_lt (by omega)
  · next h => exact Nat.mod_eq_of_lt (by omega)

theorem count_lt {N : Nat} (s : USERDATA α) (h0 : 0 < N) : count N s < N :=
  Nat.mod_lt _ h0

/-! ## The macros on in-range states -/

theorem RB_empty_iff (s : USERDATA α) : RB_empty s = true ↔ s.RXHead = s.RXTail := by
  simp [RB_empty]

theorem RB_popfront_eq {N : Nat} (s : USERDATA α) (h0 : 0 < N) (hN : N ≤ 256) :
    RB_popfront N s = { s with RXHead := (s.RXHead + 1) % N } := by
  simp [RB_popfront, u8_mod _ h0 hN]

theorem RB_pushback_eq {N : Nat} (s : USERDATA α) (h0 : 0 < N) (hN : N ≤ 256) :
    RB_pushback N s =
      if s.RXHead = (s.RXTail + 1) % N then
        { s with RXTail := (s.RXTail + 1) % N, RXHead := (s.RXHead + 1) % N }
      else { s with RXTail := (s.RXTail + 1) % N } := by
  simp [RB_pushback, RB_empty, u8_mod _ h0 hN]

theorem inRange_popfront {N : Nat} (s : USERDATA α) (h0 : 0 < N) (hN : N ≤ 256)
    (hs : s.RXTail < N) : InRange N (RB_popfront N s) := by
  rw [RB_popfront_eq s h0 hN]
  exact ⟨Nat.mod_lt _ h0, hs⟩

theorem inRange_pushback {N : Nat} (s : USERDATA α) (h0 : 0 < N) (hN : N ≤ 256)
    (hs : s.RXHead < N) : InRange N (RB_pushback N s) := by
  rw [RB_pushback_eq s h0 hN]
  split
  · exact ⟨Nat.mod_lt _ h0, Nat.mod_lt _ h0⟩
  · exact ⟨hs, Nat.mod_lt _ h0⟩

/-! ## The unread contents under pop and push -/

theorem length_unread (N : Nat) (s : USERDATA α) : (unread N s).length = count N s := by
  simp [unread]

theorem add_count_mod {N : Nat} (s : USERDATA α) (h0 : 0 < N) (hs : InRange N s) :
    (s.RXHead + count N s) % N = s.RXTail := by
  have hc := count_lt s h0
  rw [add_mod_of_lt hs.1 hc]
  rw [count_eq s hs] at hc ⊢
  obtain ⟨hh, ht⟩ := hs
  split_ifs <;> omega

theorem slot_ne_tail {N : Nat} (s : USERDATA α) (hs : InRange N s) {i : Nat}
    (hi : i < count N s) : (s.RXHead + i) % N ≠ s.RXTail := by
  have hc : count N s < N := count_lt s (by have := hs.1; omega)
  rw [add_mod_of_lt hs.1 (by omega)]
  rw [count_eq s hs] at hi hc
  obtain ⟨hh, ht⟩ := hs
  split_ifs at hi hc ⊢ <;> omega

theorem count_popfront {N : Nat} (s : USERDATA α) (hN : N ≤ 256) (hs : InRange N s)
    (hne : s.RXHead ≠ s.RXTail) : count N (RB_popfront N s) + 1 = count N s := by
  have h0 : 0 < N := by have := hs.1; omega
  rw [count_eq _ (inRange_popfront s h0 hN hs.2), count_eq s hs, RB_popfront_eq s h0 hN]
  obtain ⟨hh, ht⟩ := hs
  simp only [succ_mod_of_lt hh]
  split_ifs <;> omega

theorem unread_cons {N : Nat} (s : USERDATA α) (hN : N ≤ 256) (hs : InRange N s)
    (hne : s.RXHead ≠ s.RXTail) :
    unread N s = RB_front s :: unread N (RB_popfront N s) := by
  have h0 : 0 < N := by have := hs.1; omega
  have hc := count_popfront s hN hs hne
  unfold unread
  rw [← hc, List.range_succ_eq_map, List.map_cons, List.map_map]
  congr 1
  · simp only [RB_front, Nat.add_zero, Nat.mod_eq_of_lt hs.1]
  · apply List.map_congr_left
    intro i _
    simp only [Function.comp, RB_popfront_eq s h0 hN, Nat.mod_add_mod]
    congr 2
    omega

theorem count_push_of_not_full {N : Nat} (s : USERDATA α) (m : α) (hN : N ≤ 256)
    (hs : InRange N s) (hnf : s.RXHead ≠ (s.RXTail + 1) % N) :
    push N s m = { RB_back_store s m with RXTail := (s.RXTail + 1) % N } ∧
      count N (push N s m) = count N s + 1 := by
  have h0 : 0 < N := by have := hs.1; omega
  have e : push N s m = { RB_back_store s m with RXTail := (s.RXTail + 1) % N } := by
    unfold push
    rw [RB_pushback_eq _ h0 hN]
    simp only [RB_back_store] at hnf ⊢
    rw [if_neg hnf]
  refine ⟨e, ?_⟩
  have hr : InRange N (push N s m) := by
    rw [e]; exact ⟨hs.1, Nat.mod_lt _ h0⟩
  rw [count_eq _ hr, count_eq s hs, e]
  obtain ⟨hh, ht⟩ := hs
  simp only [RB_back_store, succ_mod_of_lt ht] at hnf ⊢
  split_ifs at hnf ⊢ <;> omega

theorem unread_push_of_not_full {N : Nat} (s : USERDATA α) (m : α) (hN : N ≤ 256)
    (hs : InRange N s) (hnf : s.RXHead ≠ (s.RXTail + 1) % N) :
    unread N (push N s m) = unread N s ++ [m] := by
  have h0 : 0 < N := by have := hs.1; omega
  obtain ⟨e, hc⟩ := count_push_of_not_full s m hN hs hnf
  unfold unread
  rw [hc, List.range_succ, List.map_append, List.map_singleton, e]
  simp only [RB_back_store, add_count_mod s h0 hs, if_true]
  congr 1
  apply List.map_congr_left
  intro i hi
  rw [if_neg (slot_ne_tail s hs (List.mem_range.mp hi))]

theorem push_of_full {N : Nat} (s : USERDATA α) (m : α) (h2 : 2 ≤ N) (hN : N ≤ 256)
    (hs : InRange N s) (hf : s.RXHead = (s.RXTail + 1) % N) :
    push N s m = push N (RB_popfront N s) m ∧ s.RXHead ≠ s.RXTail ∧
      (RB_popfront N s).RXHead ≠ ((RB_popfront N s).RXTail + 1) % N := by
  have h0 : 0 < N := by omega
  obtain ⟨hh, ht⟩ := hs
  have hne : s.RXHead ≠ s.RXTail := by
    rw [succ_mod_of_lt ht] at hf
    split_ifs at hf <;> omega
  have hnf : (s.RXHead + 1) % N ≠ (s.RXTail + 1) % N := by
    rw [succ_mod_of_lt ht, succ_mod_of_lt hh]
    split_ifs <;> omega
  refine ⟨?_, hne, ?_⟩
  · unfold push
    rw [RB_pushback_eq _ h0 hN, RB_pushback_eq _ h0 hN, RB_popfront_eq s h0 hN]
    simp only [RB_back_store]
    rw [if_pos hf, if_neg hnf]
  · rw [RB_popfront_eq s h0 hN]
    exact hnf

theorem count_of_full {N : Nat} (s : USERDATA α) (h2 : 2 ≤ N) (hs : InRange N s) :
    s.RXHead = (s.RXTail + 1) % N ↔ count N s = N - 1 := by
  rw [count_eq s hs]
  obtain ⟨hh, ht⟩ := hs
  rw [succ_mod_of_lt ht]
  split_ifs <;> omega

theorem unread_push {N : Nat} (s : USERDATA α) (m : α) (h2 : 2 ≤ N) (hN : N ≤ 256)
    (hs : InRange N s) : unread N (push N s m) = absPush N (unread N s) m := by
  have h0 : 0 < N := by omega
  unfold absPush
  rw [length_unread]
  by_cases hf : s.RXHead = (s.RXTail + 1) % N
  · obtain ⟨e, hne, hnf⟩ := push_of_full s m h2 hN hs hf
    rw [if_pos ((count_of_full s h2 hs).mp hf), e,
      unread_push_of_not_full _ m hN (inRange_popfront s h0 hN hs.2) hnf,
      unread_cons s hN hs hne, List.tail_cons]
  · rw [if_neg (fun h => hf ((count_of_full s h2 hs).mpr h))]
    exact unread_push_of_not_full s m hN hs hf

theorem unread_popGuarded {N : Nat} (s : USERDATA α) (hN : N ≤ 256) (hs : InRange N s) :
    unread N (popGuarded N s) = absPop (unread N s) := by
  unfold popGuarded absPop
  split
  · next he =>
    have h := (RB_empty_iff s).mp he
    have hc : count N s = 0 := by
      rw [count_eq s hs, if_pos (le_of_eq h)]; omega
    simp [unread, hc]
  · next he =>
    have hne : s.RXHead ≠ s.RXTail := fun h => he ((RB_empty_iff s).mpr h)
    rw [unread_cons s hN hs hne, List.tail_cons]

theorem inRange_push {N : Nat} (s : USERDATA α) (m : α) (h0 : 0 < N) (hN : N ≤ 256)
    (hs : InRange N s) : InRange N (push N s m) :=
  inRange_pushback (RB_back_store s m) h0 hN hs.1

theorem inRange_popGuarded {N : Nat} (s : USERDATA α) (h0 : 0 < N) (hN : N ≤ 256)
    (hs : InRange N s) : InRange N (popGuarded N s) := by
  unfold popGuarded
  split
  · exact hs
  · exact inRange_popfront s h0 hN hs.2

theorem inRange_step {N : Nat} (s : USERDATA α) (op : Op α) (h0 : 0 < N) (hN : N ≤ 256)
    (hs : InRange N s) : InRange N (step N s op) := by
  cases op with
  | push m => exact inRange_push s m h0 hN hs
  | pop => exact inRange_popGuarded s h0 hN hs

theorem unread_step {N : Nat} (s : USERDATA α) (op : Op α) (h2 : 2 ≤ N) (hN : N ≤ 256)
    (hs : InRange N s) : unread N (step N s op) = absStep N (unread N s) op := by
  cases op with
  | push m => exact unread_push s m h2 hN hs
  | pop => exact unread_popGuarded s hN hs

theorem run_refines {N : Nat} (h2 : 2 ≤ N) (hN : N ≤ 256) (ops : List (Op α)) :
    ∀ s : USERDATA α, InRange N s →
      InRange N (run N s ops) ∧ unread N (run N s ops) = absRun N (unread N s) ops := by
  induction ops with
  | nil => intro s hs; exact ⟨hs, rfl⟩
  | cons op ops ih =>
    intro s hs
    have h := ih (step N s op) (inRange_step s op (by omega) hN hs)
    simp only [run, absRun, List.foldl_cons] at h ⊢
    rw [unread_step s op h2 hN hs] at h
    exact h

theorem inRange_init {N : Nat} (s : USERDATA α) (h0 : 0 < N) : InRange N (RB_init s) := by
  simp [InRange, RB_init, u8, h0]

theorem unread_init {N : Nat} (s : USERDATA α) : unread N (RB_init s) = [] := by
  simp [unread, count, RB_init, u8]

/-! ## Pushes only -/

theorem pushAll_eq_run (N : Nat) (ms : List α) :
    ∀ s : USERDATA α, pushAll N s ms = run N s (ms.map Op.push) := by
  induction ms with
  | nil => intro s; rfl
  | cons m ms ih =>
    intro s
    simp only [pushAll, ih, run, List.map_cons, List.foldl_cons, step]

theorem absRun_push_snoc (N : Nat) (q : List α) (ms : List α) (m : α) :
    absRun N q ((ms ++ [m]).map Op.push) = absPush N (absRun N q (ms.map Op.push)) m := by
  simp [absRun, List.foldl_append, absStep]

theorem absRun_pushes {N : Nat} (h2 : 2 ≤ N) (ms : List α) :
    absRun N [] (ms.map Op.push) = ms.drop (ms.length - (N - 1)) := by
  induction ms using List.reverseRecOn with
  | nil => simp [absRun]
  | append_singleton ms m ih =>
    rw [absRun_push_snoc, ih]
    unfold absPush
    rw [List.length_drop, List.length_append, List.length_singleton]
    by_cases hl : N - 1 ≤ ms.length
    · rw [if_pos (by omega), List.tail_drop,
        List.drop_append_of_le_length (by omega)]
      congr 2
      omega
    · rw [if_neg (by omega)]
      have e1 : ms.length - (N - 1) = 0 := by omega
      have e2 : ms.length + 1 - (N - 1) = 0 := by omega
      rw [e1, e2, List.drop_zero, List.drop_zero]

theorem unread_pushAll {N : Nat} (h2 : 2 ≤ N) (hN : N ≤ 256) (s : USERDATA α)
    (hs : InRange N s) (he : s.RXHead = s.RXTail) (ms : List α) :
    InRange N (pushAll N s ms) ∧
      unread N (pushAll N s ms) = ms.drop (ms.length - (N - 1)) := by
  have hu : unread N s = [] := by
    have hc : count N s = 0 := by
      rw [count_eq s hs, if_pos (le_of_eq he)]; omega
    simp [unread, hc]
  have h := run_refines h2 hN (ms.map Op.push) s hs
  rw [pushAll_eq_run, h.2, hu]
  exact ⟨h.1, absRun_pushes h2 ms⟩

/-! ## The drain loop -/

theorem head_eq_tail_eta (s : USERDATA α) (he : s.RXHead = s.RXTail) :
    ({ s with RXHead := s.RXTail } : USERDATA α) = s := by
  cases s
  simp only at he
  simp [he]

theorem drain_eq {N : Nat} (hN : N ≤ 256) (fuel : Nat) :
    ∀ s : USERDATA α, InRange N s → count N s ≤ fuel →
      drain N fuel s = some (unread N s, { s with RXHead := s.RXTail }) := by
  induction fuel with
  | zero =>
    intro s hs hc
    have hc0 : count N s = 0 := by omega
    have he : s.RXHead = s.RXTail := by
      rw [count_eq s hs] at hc0
      obtain ⟨hh, ht⟩ := hs
      split_ifs at hc0 <;> omega
    have hu : unread N s = [] := by simp [unread, hc0]
    have hE : RB_empty s = true := (RB_empty_iff s).mpr he
    simp only [drain, hE, if_true, hu, head_eq_tail_eta s he]
  | succ fuel ih =>
    intro s hs hc
    have h0 : 0 < N := by have := hs.1; omega
    by_cases he : s.RXHead = s.RXTail
    · have hc0 : count N s = 0 := by
        rw [count_eq s hs, if_pos (le_of_eq he)]; omega
      have hu : unread N s = [] := by simp [unread, hc0]
      have hE : RB_empty s = true := (RB_empty_iff s).mpr he
      simp only [drain, hE, if_true, hu, head_eq_tail_eta s he]
    · have hE : RB_empty s = false := by
        cases h : RB_empty s with
        | false => rfl
        | true => exact absurd ((RB_empty_iff s).mp h) he
      have hp := count_popfront s hN hs he
      have hd := ih (RB_popfront N s) (inRange_popfront s h0 hN hs.2) (by omega)
      simp only [drain, hE, hd, unread_cons s hN hs he]
      simp [RB_popfront]

/-! ## Bare macro calls -/

theorem inRange_exec {N : Nat} (s : USERDATA α) (c : Call) (h0 : 0 < N) (hN : N ≤ 256)
    (hs : InRange N s) : InRange N (exec N s c) := by
  cases c with
  | pushback => exact inRange_pushback s h0 hN hs.1
  | popfront => exact inRange_popfront s h0 hN hs.2

theorem inRange_execAll {N : Nat} (h0 : 0 < N) (hN : N ≤ 256) (cs : List Call) :
    ∀ s : USERDATA α, InRange N s → InRange N (execAll N s cs) := by
  induction cs with
  | nil => intro s hs; exact hs
  | cons c cs ih =>
    intro s hs
    exact ih (exec N s c) (inRange_exec s c h0 hN hs)

theorem count_congr (N : Nat) (s s' : USERDATA α) (hh : s.RXHead = s'.RXHead)
    (ht : s.RXTail = s'.RXTail) : count N s = count N s' := by
  simp [count, hh, ht]

theorem pushback_indices (N : Nat) (s s' : USERDATA α) (hh : s.RXHead = s'.RXHead)
    (ht : s.RXTail = s'.RXTail) :
    (RB_pushback N s).RXHead = (RB_pushback N s').RXHead ∧
      (RB_pushback N s).RXTail = (RB_pushback N s').RXTail := by
  simp only [RB_pushback, RB_empty, hh, ht]
  split <;> simp

theorem pushAll_indices (N : Nat) (ms : List α) :
    ∀ s s' : USERDATA α, s.RXHead = s'.RXHead → s.RXTail = s'.RXTail →
      (pushAll N s ms).RXHead = ((RB_pushback N)^[ms.length] s').RXHead ∧
        (pushAll N s ms).RXTail = ((RB_pushback N)^[ms.length] s').RXTail := by
  induction ms with
  | nil => intro s s' hh ht; exact ⟨hh, ht⟩
  | cons m ms ih =>
    intro s s' hh ht
    have h := pushback_indices N (RB_back_store s m) s' hh ht
    simp only [pushAll, List.length_cons, Function.iterate_succ_apply]
    exact ih (push N s m) (RB_pushback N s') h.1 h.2

theorem count_pushAll (s0 : USERDATA α) (ms : List α) :
    count RB_SIZE (pushAll RB_SIZE (RB_init s0) ms) = min ms.length 15 := by
  have h := unread_pushAll (by decide : 2 ≤ RB_SIZE) (by decide : RB_SIZE ≤ 256)
    (RB_init s0) (inRange_init s0 (by decide)) rfl ms
  rw [← length_unread, h.2, List.length_drop]
  simp only [RB_SIZE]
  omega

/-! ## The bare consumer loop -/

theorem count_eq_zero_iff {N : Nat} (s : USERDATA α) (hs : InRange N s) :
    count N s = 0 ↔ s.RXHead = s.RXTail := by
  rw [count_eq s hs]
  obtain ⟨hh, ht⟩ := hs
  split_ifs <;> omega

theorem RB_empty_eq_false_iff (s : USERDATA α) :
    RB_empty s = false ↔ s.RXHead ≠ s.RXTail := by
  simp [RB_empty]

theorem iterate_popfront {N : Nat} (hN : N ≤ 256) (i : Nat) :
    ∀ s : USERDATA α, InRange N s → i ≤ count N s →
      InRange N ((RB_popfront N)^[i] s) ∧
        ((RB_popfront N)^[i] s).RXTail = s.RXTail ∧
        ((RB_popfront N)^[i] s).RXBuffer = s.RXBuffer ∧
        count N ((RB_popfront N)^[i] s) + i = count N s := by
  induction i with
  | zero => intro s hs _; exact ⟨hs, rfl, rfl, rfl⟩
  | succ i ih =>
    intro s hs hi
    have h0 : 0 < N := by have := hs.1; omega
    have hne : s.RXHead ≠ s.RXTail := by
      intro h
      have := (count_eq_zero_iff s hs).mpr h
      omega
    have hp := count_popfront s hN hs hne
    obtain ⟨h1, h2, h3, h4⟩ :=
      ih (RB_popfront N s) (inRange_popfront s h0 hN hs.2) (by omega)
    rw [Function.iterate_succ_apply]
    refine ⟨h1, ?_, ?_, by omega⟩
    · rw [h2]; rfl
    · rw [h3]; rfl

theorem popLoop_eq {N : Nat} (hN : N ≤ 256) (fuel : Nat) :
    ∀ s : USERDATA α, InRange N s → count N s ≤ fuel →
      popLoop N fuel s = some (count N s, (RB_popfront N)^[count N s] s) := by
  induction fuel with
  | zero =>
    intro s hs hc
    have hc0 : count N s = 0 := by omega
    have hE : RB_empty s = true := (RB_empty_iff s).mpr ((count_eq_zero_iff s hs).mp hc0)
    simp only [popLoop, hE, if_true, hc0, Function.iterate_zero, id_eq]
  | succ fuel ih =>
    intro s hs hc
    have h0 : 0 < N := by have := hs.1; omega
    by_cases he : s.RXHead = s.RXTail
    · have hc0 : count N s = 0 := (count_eq_zero_iff s hs).mpr he
      have hE : RB_empty s = true := (RB_empty_iff s).mpr he
      simp only [popLoop, hE, if_true, hc0, Function.iterate_zero, id_eq]
    · have hE : RB_empty s = false := (RB_empty_eq_false_iff s).mpr he
      have hp := count_popfront s hN hs he
      have hd := ih (RB_popfront N s) (inRange_popfront s h0 hN hs.2) (by omega)
      simp only [popLoop, hE, hd, ← hp, Function.iterate_succ_apply]
      simp

theorem popLoop_none {N : Nat} (hN : N ≤ 256) (fuel : Nat) :
    ∀ s : USERDATA α, InRange N s → fuel < count N s → popLoop N fuel s = none := by
  induction fuel with
  | zero =>
    intro s hs hc
    have he : s.RXHead ≠ s.RXTail := by
      intro h
      have := (count_eq_zero_iff s hs).mpr h
      omega
    simp only [popLoop, (RB_empty_eq_false_iff s).mpr he]
    simp
  | succ fuel ih =>
    intro s hs hc
    have h0 : 0 < N := by have := hs.1; omega
    have he : s.RXHead ≠ s.RXTail := by
      intro h
      have := (count_eq_zero_iff s hs).mpr h
      omega
    have hp := count_popfront s hN hs he
    have hd := ih (RB_popfront N s) (inRange_popfront s h0 hN hs.2) (by omega)
    simp only [popLoop, (RB_empty_eq_false_iff s).mpr he, hd]
    simp

/-! ## The claims -/

/-- Claim C1: for every sequence of pushes (store in `RXBuffer[RXTail]`, then
`RB_pushback()`) and guarded pops starting from `RB_init()`, the unread
contents equal the abstract FIFO queue run on the same sequence, where a push
onto 15 elements first discards the oldest.  In particular a push onto a
buffer holding 15 unread messages advances `RXHead` by one and leaves the 14
younger messages followed by the new one. -/
theorem C1_unread_refines_fifo (s0 : USERDATA α) (ops : List (Op α)) (m : α) :
    unread RB_SIZE (run RB_SIZE (RB_init s0) ops) = absRun RB_SIZE [] ops ∧
    (count RB_SIZE (run RB_SIZE (RB_init s0) ops) = 15 →
      (push RB_SIZE (run RB_SIZE (RB_init s0) ops) m).RXHead
          = ((run RB_SIZE (RB_init s0) ops).RXHead + 1) % 16 ∧
        unread RB_SIZE (push RB_SIZE (run RB_SIZE (RB_init s0) ops) m)
          = (unread RB_SIZE (run RB_SIZE (RB_init s0) ops)).tail ++ [m] ∧
        (unread RB_SIZE (run RB_SIZE (RB_init s0) ops)).tail.length = 14) := by
  have h2 : 2 ≤ RB_SIZE := by decide
  have hN : RB_SIZE ≤ 256 := by decide
  have h := run_refines h2 hN ops (RB_init s0) (inRange_init s0 (by decide))
  rw [unread_init] at h
  refine ⟨h.2, fun hc => ?_⟩
  have hf : (run RB_SIZE (RB_init s0) ops).RXHead
      = ((run RB_SIZE (RB_init s0) ops).RXTail + 1) % RB_SIZE :=
    (count_of_full _ h2 h.1).mpr hc
  refine ⟨?_, ?_, ?_⟩
  · unfold push
    rw [RB_pushback_eq _ (by decide) hN]
    simp only [RB_back_store]
    rw [if_pos hf]
    rfl
  · rw [unread_push _ m h2 hN h.1, absPush, length_unread, if_pos (by rw [hc]; rfl)]
  · rw [List.length_tail, length_unread, hc]

/-- Witness for C1: fifteen pushes from `RB_init()` fill the buffer, and the
sixteenth push moves the head to slot 1 and drops the oldest message. -/
theorem C1_unread_refines_fifo_witness :
    count RB_SIZE (run RB_SIZE (RB_init (mk0 0 0)) ((List.range 15).map Op.push)) = 15 ∧
    (push RB_SIZE (run RB_SIZE (RB_init (mk0 0 0)) ((List.range 15).map Op.push)) 15).RXHead
        = ((run RB_SIZE (RB_init (mk0 0 0)) ((List.range 15).map Op.push)).RXHead + 1) % 16 ∧
    unread RB_SIZE (push RB_SIZE (run RB_SIZE (RB_init (mk0 0 0))
        ((List.range 15).map Op.push)) 15)
      = (unread RB_SIZE (run RB_SIZE (RB_init (mk0 0 0))
          ((List.range 15).map Op.push))).tail ++ [15] ∧
    (unread RB_SIZE (run RB_SIZE (RB_init (mk0 0 0))
        ((List.range 15).map Op.push))).tail.length = 14 :=
  ⟨by decide,
    (C1_unread_refines_fifo (mk0 0 0) ((List.range 15).map Op.push) 15).2 (by decide)⟩

/-- Claim C2, evaluated on the code: `RB_full()` is true in the state reached
by one push from `RB_init()`, which holds one unread entry and where
`(RXTail+1) % RB_SIZE` differs from `RXHead`; and it is false in the state
reached by fifteen pushes, which holds 15 unread entries and where
`(RXTail+1) % RB_SIZE` equals `RXHead`. -/
theorem C2_RB_full_swapped :
    (RB_full RB_SIZE (pushAll RB_SIZE (RB_init (mk0 0 0)) [7]) = true ∧
      count RB_SIZE (pushAll RB_SIZE (RB_init (mk0 0 0)) [7]) = 1 ∧
      ((pushAll RB_SIZE (RB_init (mk0 0 0)) [7]).RXTail + 1) % RB_SIZE
        ≠ (pushAll RB_SIZE (RB_init (mk0 0 0)) [7]).RXHead) ∧
    (RB_full RB_SIZE (pushAll RB_SIZE (RB_init (mk0 0 0)) (List.range 15)) = false ∧
      count RB_SIZE (pushAll RB_SIZE (RB_init (mk0 0 0)) (List.range 15)) = 15 ∧
      ((pushAll RB_SIZE (RB_init (mk0 0 0)) (List.range 15)).RXTail + 1) % RB_SIZE
        = (pushAll RB_SIZE (RB_init (mk0 0 0)) (List.range 15)).RXHead) := by
  decide

/-- Counterexample to C3: right after `RB_init()` the buffer is empty, and
`RB_popfront()` changes `RXHead` from 0 to 1 and leaves a buffer that is no
longer empty. -/
theorem C3_popfront_empty_counterexample :
    RB_empty (RB_init (mk0 0 0)) = true ∧
    (RB_popfront RB_SIZE (RB_init (mk0 0 0))).RXHead = 1 ∧
    (RB_popfront RB_SIZE (RB_init (mk0 0 0))).RXHead ≠ (RB_init (mk0 0 0)).RXHead ∧
    RB_empty (RB_popfront RB_SIZE (RB_init (mk0 0 0))) = false := by
  decide

/-- Claim C3 as amended: `RB_popfront()` has no emptiness check.  On an
in-range empty buffer it still sets `RXHead` to `(RXHead+1) % 16`, which
differs from the old head, and leaves `RXTail` and every slot unchanged;
afterwards `RB_empty()` is false and the unread count reads 15. -/
theorem C3_popfront_empty_advances (s : USERDATA α) (hs : InRange RB_SIZE s)
    (he : s.RXHead = s.RXTail) :
    (RB_popfront RB_SIZE s).RXHead = (s.RXHead + 1) % 16 ∧
    (RB_popfront RB_SIZE s).RXHead ≠ s.RXHead ∧
    (RB_popfront RB_SIZE s).RXTail = s.RXTail ∧
    (RB_popfront RB_SIZE s).RXBuffer = s.RXBuffer ∧
    RB_empty (RB_popfront RB_SIZE s) = false ∧
    count RB_SIZE (RB_popfront RB_SIZE s) = 15 := by
  obtain ⟨hh, ht⟩ := hs
  simp only [RB_SIZE] at hh ht
  simp only [RB_popfront, RB_empty, count, u8, RB_SIZE, ← he]
  refine ⟨by omega, by omega, trivial, trivial, ?_, by omega⟩
  simp only [beq_eq_false_iff_ne, ne_eq]
  omega

/-- Witness for C3 as amended: the empty buffer with both indices at 15. -/
theorem C3_popfront_empty_advances_witness :
    InRange RB_SIZE (mk0 15 15) ∧ (mk0 15 15).RXHead = (mk0 15 15).RXTail ∧
    ((RB_popfront RB_SIZE (mk0 15 15)).RXHead = ((mk0 15 15).RXHead + 1) % 16 ∧
    (RB_popfront RB_SIZE (mk0 15 15)).RXHead ≠ (mk0 15 15).RXHead ∧
    (RB_popfront RB_SIZE (mk0 15 15)).RXTail = (mk0 15 15).RXTail ∧
    (RB_popfront RB_SIZE (mk0 15 15)).RXBuffer = (mk0 15 15).RXBuffer ∧
    RB_empty (RB_popfront RB_SIZE (mk0 15 15)) = false ∧
    count RB_SIZE (RB_popfront RB_SIZE (mk0 15 15)) = 15) :=
  ⟨by decide, rfl, C3_popfront_empty_advances (mk0 15 15) (by decide) rfl⟩

/-- Claim C4, evaluated on the code: on the buffer reached by fifteen pushes
from `RB_init()` (15 unread entries, `RXHead = 0`, `RXTail = 15`),
`RB_pushback()` changes `RXHead` from 0 to 1. -/
theorem C4_pushback_moves_head :
    count RB_SIZE (pushAll RB_SIZE (RB_init (mk0 0 0)) (List.range 15)) = 15 ∧
    (pushAll RB_SIZE (RB_init (mk0 0 0)) (List.range 15)).RXHead = 0 ∧
    (pushAll RB_SIZE (RB_init (mk0 0 0)) (List.range 15)).RXTail = 15 ∧
    (RB_pushback RB_SIZE (pushAll RB_SIZE (RB_init (mk0 0 0)) (List.range 15))).RXHead = 1 ∧
    (RB_pushback RB_SIZE (mk0 0 15)).RXHead = 1 := by
  decide

/-- Claim C5: in every state reached from `RB_init()` by any sequence of bare
`RB_pushback()` and `RB_popfront()` calls, in any order and with no emptiness
check, `RXHead` and `RXTail` are both below `RB_SIZE = 16`, so `RB_front()`
and `RB_back()` index inside the array. -/
theorem C5_indices_in_range (s0 : USERDATA α) (cs : List Call) :
    (execAll RB_SIZE (RB_init s0) cs).RXHead < 16 ∧
    (execAll RB_SIZE (RB_init s0) cs).RXTail < 16 :=
  inRange_execAll (by decide) (by decide) cs (RB_init s0) (inRange_init s0 (by decide))

/-- Claim C6: on an in-range, non-empty buffer `RB_front()` is the first of
the unread messages, and for a state reached from `RB_init()` it is the front
of the abstract queue, that is the earliest pushed message neither popped nor
discarded.  `RB_popfront()` sets `RXHead` to `(RXHead+1) % 16`; the unread
sequence afterwards is the previous one without its first element and the
unread count has dropped by exactly one. -/
theorem C6_front_is_oldest (s : USERDATA α) (hs : InRange RB_SIZE s)
    (hne : s.RXHead ≠ s.RXTail) :
    (unread RB_SIZE s).head? = some (RB_front s) ∧
    (∀ (s0 : USERDATA α) (ops : List (Op α)), s = run RB_SIZE (RB_init s0) ops →
      (absRun RB_SIZE [] ops).head? = some (RB_front s)) ∧
    (RB_popfront RB_SIZE s).RXHead = (s.RXHead + 1) % 16 ∧
    unread RB_SIZE (RB_popfront RB_SIZE s) = (unread RB_SIZE s).tail ∧
    count RB_SIZE (RB_popfront RB_SIZE s) + 1 = count RB_SIZE s := by
  have hN : RB_SIZE ≤ 256 := by decide
  have hu := unread_cons s hN hs hne
  refine ⟨by rw [hu]; rfl, ?_, ?_, by rw [hu]; rfl, count_popfront s hN hs hne⟩
  · intro s0 ops e
    have h := run_refines (by decide : 2 ≤ RB_SIZE) hN ops (RB_init s0)
      (inRange_init s0 (by decide))
    rw [unread_init, ← e] at h
    rw [← h.2, hu]
    rfl
  · rw [RB_popfront_eq s (by decide) hN]
    rfl

/-- Witness for C6: the buffer after pushing 10, 20, 30 from `RB_init()`. -/
theorem C6_front_is_oldest_witness :
    InRange RB_SIZE (pushAll RB_SIZE (RB_init (mk0 0 0)) [10, 20, 30]) ∧
    (pushAll RB_SIZE (RB_init (mk0 0 0)) [10, 20, 30]).RXHead
      ≠ (pushAll RB_SIZE (RB_init (mk0 0 0)) [10, 20, 30]).RXTail ∧
    RB_front (pushAll RB_SIZE (RB_init (mk0 0 0)) [10, 20, 30]) = 10 ∧
    unread RB_SIZE (RB_popfront RB_SIZE (pushAll RB_SIZE (RB_init (mk0 0 0)) [10, 20, 30]))
      = (unread RB_SIZE (pushAll RB_SIZE (RB_init (mk0 0 0)) [10, 20, 30])).tail :=
  ⟨by decide, by decide, by decide,
    (C6_front_is_oldest (pushAll RB_SIZE (RB_init (mk0 0 0)) [10, 20, 30])
      (by decide) (by decide)).2.2.2.1⟩

/-- Claim C7: after `k` calls of `RB_pushback()` from `RB_init()` with no pop,
the unread count `(RXTail - RXHead) mod 16` is exactly `min k 15`, and the
same holds when each call is preceded by a store through `RB_back()`; so the
buffer never holds more than `RB_SIZE - 1` entries. -/
theorem C7_count_after_pushes (s0 : USERDATA α) (k : Nat) :
    count RB_SIZE ((RB_pushback RB_SIZE)^[k] (RB_init s0)) = min k 15 ∧
    (∀ ms : List α, count RB_SIZE (pushAll RB_SIZE (RB_init s0) ms) = min ms.length 15) ∧
    count RB_SIZE ((RB_pushback RB_SIZE)^[k] (RB_init s0)) ≤ RB_SIZE - 1 := by
  have hk : count RB_SIZE ((RB_pushback RB_SIZE)^[k] (RB_init s0)) = min k 15 := by
    have hi := pushAll_indices RB_SIZE (List.replicate k (s0.RXBuffer 0))
      (RB_init s0) (RB_init s0) rfl rfl
    rw [List.length_replicate] at hi
    rw [← count_congr RB_SIZE _ _ hi.1 hi.2, count_pushAll, List.length_replicate]
  refine ⟨hk, fun ms => count_pushAll s0 ms, ?_⟩
  rw [hk]
  simp only [RB_SIZE]
  omega

/-- Counterexample to C8: sixteen messages 0..15 pushed from `RB_init()`; the
drain finishes and yields 1..15 only, so message 0 is never seen. -/
theorem C8_drain_counterexample :
    (drain RB_SIZE 16 (pushAll RB_SIZE (RB_init (mk0 0 0)) (List.range 16))).map Prod.fst
      = some [1, 2, 3, 4, 5, 6, 7, 8, 9, 10, 11, 12, 13, 14, 15] ∧
    (drain RB_SIZE 16 (pushAll RB_SIZE (RB_init (mk0 0 0)) (List.range 16))).map Prod.fst
      ≠ some (List.range 16) := by
  decide

/-- Claim C8 as amended: for messages pushed onto an empty in-range buffer,
the drain terminates (any fuel of at least 15 iterations suffices), ends in an
empty buffer, and yields the last 15 messages pushed, in push order; when at
most 15 messages were pushed, that is all of them, each exactly once. -/
theorem C8_drain_yields_last_15 (s : USERDATA α) (hs : InRange RB_SIZE s)
    (he : s.RXHead = s.RXTail) (ms : List α) (fuel : Nat) (hf : 15 ≤ fuel) :
    ∃ s' : USERDATA α,
      drain RB_SIZE fuel (pushAll RB_SIZE s ms) = some (ms.drop (ms.length - 15), s') ∧
      RB_empty s' = true ∧
      (ms.length ≤ 15 → drain RB_SIZE fuel (pushAll RB_SIZE s ms) = some (ms, s')) := by
  have hN : RB_SIZE ≤ 256 := by decide
  have hp := unread_pushAll (by decide : 2 ≤ RB_SIZE) hN s hs he ms
  have hc : count RB_SIZE (pushAll RB_SIZE s ms) ≤ fuel := by
    have := count_lt (pushAll RB_SIZE s ms) (by decide : 0 < RB_SIZE)
    simp only [RB_SIZE] at this ⊢
    omega
  have hd := drain_eq hN fuel (pushAll RB_SIZE s ms) hp.1 hc
  rw [hp.2] at hd
  refine ⟨_, hd, by simp [RB_empty], fun hl => ?_⟩
  rw [hd]
  have e : ms.length - (RB_SIZE - 1) = 0 := by simp only [RB_SIZE]; omega
  rw [e, List.drop_zero]

/-- Witness for C8 as amended: three messages pushed onto the empty buffer
with both indices at 14, so that the tail wraps around during the pushes. -/
theorem C8_drain_yields_last_15_witness :
    InRange RB_SIZE (mk0 14 14) ∧ (mk0 14 14).RXHead = (mk0 14 14).RXTail ∧ 15 ≤ 15 ∧
    ∃ s' : USERDATA Nat,
      drain RB_SIZE 15 (pushAll RB_SIZE (mk0 14 14) [10, 20, 30])
        = some ([10, 20, 30].drop ([10, 20, 30].length - 15), s') ∧
      RB_empty s' = true ∧
      ([10, 20, 30].length ≤ 15 →
        drain RB_SIZE 15 (pushAll RB_SIZE (mk0 14 14) [10, 20, 30]) = some ([10, 20, 30], s')) :=
  ⟨by decide, rfl, by decide,
    C8_drain_yields_last_15 (mk0 14 14) (by decide) rfl [10, 20, 30] 15 (by decide)⟩

/-- Claim C9: with `RB_SIZE` replaced by any `N` with `2 ≤ N ≤ 256`, the
macros keep both indices below `N` under any sequence of bare calls, the
unread contents follow the abstract FIFO queue of capacity `N - 1` under any
sequence of pushes and guarded pops, and after pushes only the buffer holds
the most recent `N - 1` messages in arrival order. -/
theorem C9_any_size (N : Nat) (h2 : 2 ≤ N) (hN : N ≤ 256) (s0 : USERDATA α) :
    (∀ cs : List Call, InRange N (execAll N (RB_init s0) cs)) ∧
    (∀ ops : List (Op α), InRange N (run N (RB_init s0) ops) ∧
      unread N (run N (RB_init s0) ops) = absRun N [] ops) ∧
    (∀ ms : List α,
      unread N (pushAll N (RB_init s0) ms) = ms.drop (ms.length - (N - 1))) := by
  have h0 : 0 < N := by omega
  refine ⟨fun cs => inRange_execAll h0 hN cs _ (inRange_init s0 h0), fun ops => ?_,
    fun ms => (unread_pushAll h2 hN _ (inRange_init s0 h0) rfl ms).2⟩
  have h := run_refines h2 hN ops (RB_init s0) (inRange_init s0 h0)
  rw [unread_init] at h
  exact h

/-- Witness for C9: the size 12, which is not a power of two. -/
theorem C9_any_size_witness :
    2 ≤ 12 ∧ 12 ≤ 256 ∧
    ((∀ cs : List Call, InRange 12 (execAll 12 (RB_init (mk0 0 0)) cs)) ∧
    (∀ ops : List (Op Nat), InRange 12 (run 12 (RB_init (mk0 0 0)) ops) ∧
      unread 12 (run 12 (RB_init (mk0 0 0)) ops) = absRun 12 [] ops) ∧
    (∀ ms : List Nat,
      unread 12 (pushAll 12 (RB_init (mk0 0 0)) ms) = ms.drop (ms.length - (12 - 1)))) :=
  ⟨by decide, by decide, C9_any_size 12 (by decide) (by decide) (mk0 0 0)⟩

/-- Claim C10: on an in-range empty buffer, storing `m` through `RB_back()`
and calling `RB_pushback()` gives a non-empty buffer whose `RB_front()` is
`m`, with `RXHead` unchanged; a following `RB_popfront()` gives an empty
buffer again, with both indices advanced by one modulo 16. -/
theorem C10_push_pop_round_trip (s : USERDATA α) (m : α) (hs : InRange RB_SIZE s)
    (he : s.RXHead = s.RXTail) :
    RB_empty (push RB_SIZE s m) = false ∧
    RB_front (push RB_SIZE s m) = m ∧
    (push RB_SIZE s m).RXHead = s.RXHead ∧
    RB_empty (RB_popfront RB_SIZE (push RB_SIZE s m)) = true ∧
    (RB_popfront RB_SIZE (push RB_SIZE s m)).RXHead = (s.RXHead + 1) % 16 ∧
    (RB_popfront RB_SIZE (push RB_SIZE s m)).RXTail = (s.RXTail + 1) % 16 := by
  have h0 : 0 < RB_SIZE := by decide
  have hN : RB_SIZE ≤ 256 := by decide
  have hnf : s.RXHead ≠ (s.RXTail + 1) % RB_SIZE := by
    obtain ⟨hh, ht⟩ := hs
    simp only [RB_SIZE] at hh ht ⊢
    omega
  have e := (count_push_of_not_full s m hN hs hnf).1
  rw [RB_popfront_eq _ h0 hN, e]
  simp only [RB_empty, RB_front, RB_back_store, RB_SIZE, he] at hnf ⊢
  refine ⟨?_, by simp, trivial, by simp, trivial, trivial⟩
  simp only [beq_eq_false_iff_ne, ne_eq]
  exact hnf

/-- Witness for C10: the empty buffer with both indices at 15, message 42. -/
theorem C10_push_pop_round_trip_witness :
    InRange RB_SIZE (mk0 15 15) ∧ (mk0 15 15).RXHead = (mk0 15 15).RXTail ∧
    (RB_empty (push RB_SIZE (mk0 15 15) 42) = false ∧
    RB_front (push RB_SIZE (mk0 15 15) 42) = 42 ∧
    (push RB_SIZE (mk0 15 15) 42).RXHead = (mk0 15 15).RXHead ∧
    RB_empty (RB_popfront RB_SIZE (push RB_SIZE (mk0 15 15) 42)) = true ∧
    (RB_popfront RB_SIZE (push RB_SIZE (mk0 15 15) 42)).RXHead = ((mk0 15 15).RXHead + 1) % 16 ∧
    (RB_popfront RB_SIZE (push RB_SIZE (mk0 15 15) 42)).RXTail
      = ((mk0 15 15).RXTail + 1) % 16) :=
  ⟨by decide, rfl, C10_push_pop_round_trip (mk0 15 15) 42 (by decide) rfl⟩

/-- Claim C11: in every state `RB_popfront()` leaves `RXTail` and every
`RXBuffer` slot unchanged, and `RB_pushback()` changes no `RXBuffer` slot.
On a state with both indices inside the array, the store through `RB_back()`
writes slot `RXTail` and no other, keeps both indices, and that slot is none
of the unread slots `RXHead .. RXTail-1`, so the store leaves the unread
contents as they were. -/
theorem C11_tail_and_slots_frame (s : USERDATA α) (m : α) :
    (RB_popfront RB_SIZE s).RXTail = s.RXTail ∧
    (RB_popfront RB_SIZE s).RXBuffer = s.RXBuffer ∧
    (RB_pushback RB_SIZE s).RXBuffer = s.RXBuffer ∧
    (InRange RB_SIZE s →
      (RB_back_store s m).RXBuffer s.RXTail = m ∧
      (∀ j : Nat, j ≠ s.RXTail → (RB_back_store s m).RXBuffer j = s.RXBuffer j) ∧
      ((RB_back_store s m).RXHead = s.RXHead ∧ (RB_back_store s m).RXTail = s.RXTail) ∧
      (∀ i : Nat, i < count RB_SIZE s → (s.RXHead + i) % RB_SIZE ≠ s.RXTail) ∧
      unread RB_SIZE (RB_back_store s m) = unread RB_SIZE s) := by
  refine ⟨rfl, rfl, ?_, fun hs => ?_⟩
  · simp only [RB_pushback]
    split <;> rfl
  · have hslot : ∀ i : Nat, i < count RB_SIZE s → (s.RXHead + i) % RB_SIZE ≠ s.RXTail :=
      fun i hi => slot_ne_tail s hs hi
    refine ⟨?_, ?_, ⟨rfl, rfl⟩, hslot, ?_⟩
    · simp only [RB_back_store, if_true]
    · intro j hj
      simp only [RB_back_store, if_neg hj]
    · unfold unread
      rw [count_congr RB_SIZE (RB_back_store s m) s rfl rfl]
      apply List.map_congr_left
      intro i hi
      simp only [RB_back_store, if_neg (hslot i (List.mem_range.mp hi))]

/-- Witness for C11: after pushing 10, 20, 30 from `RB_init()` both indices
are inside the array, the unread slots are 0, 1, 2 and the next store goes to
slot 3, leaving the unread contents as they were. -/
theorem C11_tail_and_slots_frame_witness :
    InRange RB_SIZE (pushAll RB_SIZE (RB_init (mk0 0 0)) [10, 20, 30]) ∧
    2 < count RB_SIZE (pushAll RB_SIZE (RB_init (mk0 0 0)) [10, 20, 30]) ∧
    ((pushAll RB_SIZE (RB_init (mk0 0 0)) [10, 20, 30]).RXHead + 2) % RB_SIZE
      ≠ (pushAll RB_SIZE (RB_init (mk0 0 0)) [10, 20, 30]).RXTail ∧
    unread RB_SIZE (RB_back_store (pushAll RB_SIZE (RB_init (mk0 0 0)) [10, 20, 30]) 40)
      = unread RB_SIZE (pushAll RB_SIZE (RB_init (mk0 0 0)) [10, 20, 30]) :=
  ⟨by decide, by decide,
    ((C11_tail_and_slots_frame (pushAll RB_SIZE (RB_init (mk0 0 0)) [10, 20, 30]) 40).2.2.2
      (by decide)).2.2.2.1 2 (by decide),
    ((C11_tail_and_slots_frame (pushAll RB_SIZE (RB_init (mk0 0 0)) [10, 20, 30]) 40).2.2.2
      (by decide)).2.2.2.2⟩

/-- Claim C12: on an in-range state `RB_full()` as coded,
`(RXHead+1) % 16 == RXTail`, is true exactly when the unread count
`(RXTail - RXHead) mod 16` is 1; it is false in every state holding 15 unread
entries, and it is true right after the first push following `RB_init()`. -/
theorem C12_RB_full_as_coded (s : USERDATA α) (hs : InRange RB_SIZE s) :
    (RB_full RB_SIZE s = true ↔ count RB_SIZE s = 1) ∧
    (count RB_SIZE s = 15 → RB_full RB_SIZE s = false) ∧
    (∀ (s0 : USERDATA α) (m : α),
      RB_full RB_SIZE (push RB_SIZE (RB_init s0) m) = true ∧
        count RB_SIZE (push RB_SIZE (RB_init s0) m) = 1) := by
  obtain ⟨hh, ht⟩ := hs
  simp only [RB_SIZE] at hh ht
  refine ⟨?_, ?_, fun s0 m => ⟨rfl, ?_⟩⟩
  · simp only [RB_full, count, RB_SIZE, beq_iff_eq]
    omega
  · intro hc
    simp only [RB_full, count, RB_SIZE, beq_eq_false_iff_ne, ne_eq] at hc ⊢
    omega
  · simp [push, RB_pushback, RB_back_store, RB_init, RB_empty, count, u8, RB_SIZE]

/-- Witness for C12: the in-range state with `RXHead = 15`, `RXTail = 0`,
which holds one unread entry. -/
theorem C12_RB_full_as_coded_witness :
    InRange RB_SIZE (mk0 15 0) ∧
    ((RB_full RB_SIZE (mk0 15 0) = true ↔ count RB_SIZE (mk0 15 0) = 1) ∧
    (count RB_SIZE (mk0 15 0) = 15 → RB_full RB_SIZE (mk0 15 0) = false) ∧
    (∀ (s0 : USERDATA Nat) (m : Nat),
      RB_full RB_SIZE (push RB_SIZE (RB_init s0) m) = true ∧
        count RB_SIZE (push RB_SIZE (RB_init s0) m) = 1)) :=
  ⟨by decide, C12_RB_full_as_coded (mk0 15 0) (by decide)⟩

/-- Claim C13: on an in-range state, after `RB_pushback()` the buffer is not
empty (`RXHead != RXTail`): the tail becomes `(RXTail+1) % 16`, and the head
is advanced to `(RXHead+1) % 16` exactly when the advanced tail equals it,
otherwise it is kept. -/
theorem C13_pushback_not_empty (s : USERDATA α) (hs : InRange RB_SIZE s) :
    RB_empty (RB_pushback RB_SIZE s) = false ∧
    (RB_pushback RB_SIZE s).RXHead ≠ (RB_pushback RB_SIZE s).RXTail ∧
    (RB_pushback RB_SIZE s).RXTail = (s.RXTail + 1) % 16 ∧
    (s.RXHead = (s.RXTail + 1) % 16 →
      (RB_pushback RB_SIZE s).RXHead = (s.RXHead + 1) % 16) ∧
    (s.RXHead ≠ (s.RXTail + 1) % 16 → (RB_pushback RB_SIZE s).RXHead = s.RXHead) := by
  obtain ⟨hh, ht⟩ := hs
  simp only [RB_SIZE] at hh ht
  rw [RB_empty_eq_false_iff, RB_pushback_eq s (by decide) (by decide)]
  simp only [RB_SIZE]
  by_cases hf : s.RXHead = (s.RXTail + 1) % 16
  · rw [if_pos hf]
    refine ⟨?_, ?_, rfl, fun _ => rfl, fun h => absurd hf h⟩ <;>
      simp only [ne_eq] <;> omega
  · rw [if_neg hf]
    exact ⟨hf, hf, rfl, fun h => absurd h hf, fun _ => rfl⟩

/-- Witness for C13: the buffer holding 15 unread entries with `RXHead = 3`,
`RXTail = 2`, where the advanced tail meets the head. -/
theorem C13_pushback_not_empty_witness :
    InRange RB_SIZE (mk0 3 2) ∧
    (RB_empty (RB_pushback RB_SIZE (mk0 3 2)) = false ∧
    (RB_pushback RB_SIZE (mk0 3 2)).RXHead ≠ (RB_pushback RB_SIZE (mk0 3 2)).RXTail ∧
    (RB_pushback RB_SIZE (mk0 3 2)).RXTail = ((mk0 3 2).RXTail + 1) % 16 ∧
    ((mk0 3 2).RXHead = ((mk0 3 2).RXTail + 1) % 16 →
      (RB_pushback RB_SIZE (mk0 3 2)).RXHead = ((mk0 3 2).RXHead + 1) % 16) ∧
    ((mk0 3 2).RXHead ≠ ((mk0 3 2).RXTail + 1) % 16 →
      (RB_pushback RB_SIZE (mk0 3 2)).RXHead = (mk0 3 2).RXHead)) :=
  ⟨by decide, C13_pushback_not_empty (mk0 3 2) (by decide)⟩

/-- Claim C14: on an in-range state with unread count `c`, the loop
`while not RB_empty(): RB_popfront()` terminates after exactly `c ≤ 15`
iterations: it finishes within any fuel of at least `c` iterations with
iteration count `c`, and has not finished within fewer.  `RB_empty()` is
false before each of the `c` iterations and true at the end, and `RXTail`
is unchanged. -/
theorem C14_drain_terminates (s : USERDATA α) (hs : InRange RB_SIZE s) :
    count RB_SIZE s ≤ 15 ∧
    (∀ fuel : Nat, count RB_SIZE s ≤ fuel →
      popLoop RB_SIZE fuel s
        = some (count RB_SIZE s, (RB_popfront RB_SIZE)^[count RB_SIZE s] s)) ∧
    (∀ fuel : Nat, fuel < count RB_SIZE s → popLoop RB_SIZE fuel s = none) ∧
    (∀ i : Nat, i < count RB_SIZE s → RB_empty ((RB_popfront RB_SIZE)^[i] s) = false) ∧
    RB_empty ((RB_popfront RB_SIZE)^[count RB_SIZE s] s) = true ∧
    ((RB_popfront RB_SIZE)^[count RB_SIZE s] s).RXTail = s.RXTail := by
  have hN : RB_SIZE ≤ 256 := by decide
  have hc : count RB_SIZE s ≤ 15 := by
    have := count_lt s (by decide : 0 < RB_SIZE)
    simp only [RB_SIZE] at this ⊢
    omega
  obtain ⟨hr, htail, _, hcnt⟩ := iterate_popfront hN (count RB_SIZE s) s hs (le_refl _)
  refine ⟨hc, fun fuel hf => popLoop_eq hN fuel s hs hf,
    fun fuel hf => popLoop_none hN fuel s hs hf, fun i hi => ?_, ?_, htail⟩
  · obtain ⟨hr', _, _, hcnt'⟩ := iterate_popfront hN i s hs (le_of_lt hi)
    rw [RB_empty_eq_false_iff]
    intro h
    have := (count_eq_zero_iff _ hr').mpr h
    omega
  · rw [RB_empty_iff]
    exact (count_eq_zero_iff _ hr).mp (by omega)

/-- Witness for C14: the in-range state with `RXHead = 14`, `RXTail = 1`,
whose three unread entries lie across the wrap-around. -/
theorem C14_drain_terminates_witness :
    InRange RB_SIZE (mk0 14 1) ∧ count RB_SIZE (mk0 14 1) = 3 ∧
    (count RB_SIZE (mk0 14 1) ≤ 15 ∧
    (∀ fuel : Nat, count RB_SIZE (mk0 14 1) ≤ fuel →
      popLoop RB_SIZE fuel (mk0 14 1)
        = some (count RB_SIZE (mk0 14 1),
            (RB_popfront RB_SIZE)^[count RB_SIZE (mk0 14 1)] (mk0 14 1))) ∧
    (∀ fuel : Nat, fuel < count RB_SIZE (mk0 14 1) →
      popLoop RB_SIZE fuel (mk0 14 1) = none) ∧
    (∀ i : Nat, i < count RB_SIZE (mk0 14 1) →
      RB_empty ((RB_popfront RB_SIZE)^[i] (mk0 14 1)) = false) ∧
    RB_empty ((RB_popfront RB_SIZE)^[count RB_SIZE (mk0 14 1)] (mk0 14 1)) = true ∧
    ((RB_popfront RB_SIZE)^[count RB_SIZE (mk0 14 1)] (mk0 14 1)).RXTail
      = (mk0 14 1).RXTail) :=
  ⟨by decide, by decide, C14_drain_terminates (mk0 14 1) (by decide)⟩

end FunctionalMorphogenesis
